import Mathlib

/-!
Shallow embedding of the log-manager core (src/manager.rs, src/logs.rs,
src/database/model.rs, src/lib.rs, src/error.rs): the data model, the
process-wide id allocator `NEXT_LOG_ID`, the `save_log` path and the
`search` filter/pagination/count pipeline, over an in-memory list of rows
standing for the sqlite `log` table.  Machine integers are modelled as
`Nat`/`Int` with explicit reductions modulo `2 ^ 32` (u32/i32) and
`2 ^ 64` (usize, assuming a 64-bit target).
-/

namespace LogManagerModel

/-- Severity levels (src/logs.rs, `enum Level`). -/
inductive Level where
  | trace
  | debug
  | info
  | warn
  | error
deriving DecidableEq

/-- serde_json::to_string of the derived `Serialize` for `Level`: an
externally tagged unit variant serializes to the quoted variant name. -/
def Level.serialize : Level → String
  | .trace => "\"Trace\""
  | .debug => "\"Debug\""
  | .info => "\"Info\""
  | .warn => "\"Warn\""
  | .error => "\"Error\""

/-- Lowercase hex digit, as serde_json emits inside control-character escapes. -/
def hexDigit (n : Nat) : Char :=
  if n < 10 then Char.ofNat (48 + n) else Char.ofNat (87 + n)

/-- serde_json escaping of one character inside a JSON string literal. -/
def jsonEscapeChar (c : Char) : List Char :=
  if c = '"' then ['\\', '"']
  else if c = '\\' then ['\\', '\\']
  else if c = '\x08' then ['\\', 'b']
  else if c = '\t' then ['\\', 't']
  else if c = '\n' then ['\\', 'n']
  else if c = '\x0c' then ['\\', 'f']
  else if c = '\r' then ['\\', 'r']
  else if c.toNat < 32 then
    ['\\', 'u', '0', '0', hexDigit (c.toNat / 16), hexDigit (c.toNat % 16)]
  else [c]

/-- serde_json::to_string of a Rust `String` value: the JSON string literal. -/
def jsonEncodeString (s : String) : String :=
  ⟨'"' :: (s.data.map jsonEscapeChar).flatten ++ ['"']⟩

/-- Numeric value of one hex digit, if any. -/
def hexVal (c : Char) : Option Nat :=
  if '0' ≤ c ∧ c ≤ '9' then some (c.toNat - 48)
  else if 'a' ≤ c ∧ c ≤ 'f' then some (c.toNat - 87)
  else if 'A' ≤ c ∧ c ≤ 'F' then some (c.toNat - 55)
  else none

/-- JSON whitespace, which serde_json skips around a value. -/
def isJsonWs (c : Char) : Bool :=
  c = ' ' || c = '\t' || c = '\n' || c = '\r'

/-- Drop leading JSON whitespace. -/
def dropWs : List Char → List Char
  | [] => []
  | c :: cs => if isJsonWs c then dropWs cs else c :: cs

/-- Scanner state inside a JSON string literal: scanning normally, just after
a backslash, or inside a four-digit \u escape (one state per count of hex
digits still expected, carrying the accumulated code point). -/
inductive JsonStrState where
  | normal
  | escaped
  | hex4
  | hex3 (acc : Nat)
  | hex2 (acc : Nat)
  | hex1 (acc : Nat)

/-- Scan the body of a JSON string literal after the opening quote: returns
the decoded characters, allowing only whitespace after the closing quote
(serde_json::from_str rejects trailing non-whitespace data).  Surrogate
escapes are rejected (serde_json rejects lone surrogates; surrogate pairs,
which only encode astral characters, are not modelled). -/
def jsonStrScan : JsonStrState → List Char → Option (List Char)
  | _, [] => none
  | .normal, c :: rest =>
    if c = '"' then (if (dropWs rest).isEmpty then some [] else none)
    else if c = '\\' then jsonStrScan .escaped rest
    else if c.toNat < 32 then none
    else (jsonStrScan .normal rest).map (fun cs => c :: cs)
  | .escaped, c :: rest =>
    if c = '"' then (jsonStrScan .normal rest).map (fun cs => '"' :: cs)
    else if c = '\\' then (jsonStrScan .normal rest).map (fun cs => '\\' :: cs)
    else if c = '/' then (jsonStrScan .normal rest).map (fun cs => '/' :: cs)
    else if c = 'n' then (jsonStrScan .normal rest).map (fun cs => '\n' :: cs)
    else if c = 't' then (jsonStrScan .normal rest).map (fun cs => '\t' :: cs)
    else if c = 'r' then (jsonStrScan .normal rest).map (fun cs => '\r' :: cs)
    else if c = 'b' then (jsonStrScan .normal rest).map (fun cs => '\x08' :: cs)
    else if c = 'f' then (jsonStrScan .normal rest).map (fun cs => '\x0c' :: cs)
    else if c = 'u' then jsonStrScan .hex4 rest
    else none
  | .hex4, c :: rest =>
    match hexVal c with
    | some v => jsonStrScan (.hex3 v) rest
    | none => none
  | .hex3 acc, c :: rest =>
    match hexVal c with
    | some v => jsonStrScan (.hex2 (acc * 16 + v)) rest
    | none => none
  | .hex2 acc, c :: rest =>
    match hexVal c with
    | some v => jsonStrScan (.hex1 (acc * 16 + v)) rest
    | none => none
  | .hex1 acc, c :: rest =>
    match hexVal c with
    | some v =>
      if 55296 ≤ acc * 16 + v ∧ acc * 16 + v ≤ 57343 then none
      else (jsonStrScan .normal rest).map (fun cs => Char.ofNat (acc * 16 + v) :: cs)
    | none => none

/-- Body of a JSON string literal after the opening quote. -/
def jsonStringBody (cs : List Char) : Option (List Char) := jsonStrScan .normal cs

/-- serde_json::from_str of a Rust `String` value: skip surrounding
whitespace, then parse the JSON string literal. -/
def jsonDecodeString (s : String) : Except Unit String :=
  match dropWs s.data with
  | '"' :: rest =>
    match jsonStringBody rest with
    | some cs => .ok ⟨cs⟩
    | none => .error ()
  | _ => .error ()

/-- serde_json::from_str of the derived `Deserialize` for `Level`: parse the
JSON string (surrounding whitespace and escape sequences accepted, as in
serde_json), then match the decoded variant name. -/
def Level.deserialize (s : String) : Except Unit Level :=
  match jsonDecodeString s with
  | .error _ => .error ()
  | .ok name =>
    if name = "Trace" then .ok .trace
    else if name = "Debug" then .ok .debug
    else if name = "Info" then .ok .info
    else if name = "Warn" then .ok .warn
    else if name = "Error" then .ok .error
    else .error ()

/-- The codec of the opaque, caller-defined source type `S`
(the `Serialize + DeserializeOwned` bound, routed through serde_json). -/
structure Codec (S : Type) where
  ser : S → Except Unit String
  deser : String → Except Unit S

/-- serde_json::to_string for a `String` field; serialization of a valid Rust
string to a JSON writer never fails. -/
def jsonSerString (s : String) : Except Unit String := .ok (jsonEncodeString s)

/-- serde_json::to_string for a `Level` field; never fails. -/
def jsonSerLevel (l : Level) : Except Unit String := .ok (Level.serialize l)

/-- Error variants (src/error.rs), payloads reduced to what the claims
observe.  `NegativeLogID` is constructed in src/manager.rs
(`Error::NegativeLogID(max_id)`, the spec's `InvalidPersistedId`); its
declaration is not in the provided error.rs snapshot, so it is modelled
from its construction site, carrying the offending persisted id. -/
inductive Error where
  | DieselConnection
  | DieselResult
  | RunningMigrations (msg : String)
  | SerializingField (field : String)
  | DeserializingField (field : String)
  | Builder (missing : String)
  | Errors (errs : List Error)
  | NegativeLogID (id : Int)

/-- Caller-facing input (src/logs.rs, `SimpleLog`): raw, unserialized fields. -/
structure SimpleLog where
  timestamp : String
  level : Level
  location : String
  content : String

/-- The durable row (src/database/model.rs, `LogModel`): `id` is `i32`, every
other column holds the canonical serialized string. -/
structure LogModel where
  id : Int
  source : String
  timestamp : String
  level : String
  location : String
  content : String
deriving DecidableEq

/-- Caller-facing output (src/logs.rs, `Log<S>`): hydrated from a `LogModel`. -/
structure Log (S : Type) where
  id : Int
  source : S
  timestamp : String
  level : Level
  location : String
  content : String
deriving DecidableEq

/-- `NEXT_LOG_ID.fetch_add(1, SeqCst)` on the process-wide `AtomicU32`
(src/lib.rs): returns the previous value and the wrapped successor state. -/
def fetchAddNextLogId (c : Nat) : Nat × Nat := (c % 2 ^ 32, (c + 1) % 2 ^ 32)

/-- Rust `u32 as i32`: two's-complement reinterpretation. -/
def u32AsI32 (n : Nat) : Int :=
  if n % 2 ^ 32 < 2 ^ 31 then ((n % 2 ^ 32 : Nat) : Int)
  else ((n % 2 ^ 32 : Nat) : Int) - 2 ^ 32

/-- Rust `i32 as u32`: two's-complement reinterpretation. -/
def i32AsU32 (i : Int) : Nat := (i % 2 ^ 32).toNat

/-- Wrapping usize subtraction (64-bit target). -/
def usizeSub (a b : Nat) : Nat := (a + (2 ^ 64 - b % 2 ^ 64)) % 2 ^ 64

/-- Wrapping usize multiplication (64-bit target). -/
def usizeMul (a b : Nat) : Nat := a * b % 2 ^ 64

/-- Rust `usize as i64`: two's-complement reinterpretation. -/
def i64OfUsize (n : Nat) : Int :=
  if n % 2 ^ 64 < 2 ^ 63 then ((n % 2 ^ 64 : Nat) : Int)
  else ((n % 2 ^ 64 : Nat) : Int) - 2 ^ 64

/-- SQL `max(id)` over the `log` table: `NULL` (`none`) on an empty table. -/
def dbMaxId : List LogModel → Option Int
  | [] => none
  | m :: ms =>
    match dbMaxId ms with
    | none => some m.id
    | some v => some (max v m.id)

/-- get_next_log_id (src/manager.rs): `select max(id)`, `unwrap_or(0)`, fail
on a negative maximum, else cast `i32 -> u32`. -/
def getNextLogId (db : List LogModel) : Except Error Nat :=
  let maxId : Int := (dbMaxId db).getD 0
  if maxId < 0 then .error (.NegativeLogID maxId)
  else .ok (i32AsU32 maxId)

/-- The bootstrap step of LogManager::new (src/manager.rs):
`NEXT_LOG_ID.store(get_next_log_id(&database_url)? + 1, SeqCst)`.  Returns the
value stored into the process-wide counter; it does not depend on any prior
counter value. -/
def managerNew (db : List LogModel) : Except Error Nat :=
  match getNextLogId db with
  | .error e => .error e
  | .ok n => .ok ((n + 1) % 2 ^ 32)

/-- The `serialize_or_return_err!` macro (src/database/model.rs): wrap a serde
failure into a field-scoped `SerializingField` error. -/
def serializeOrReturnErr (r : Except Unit String) (fieldName : String) :
    Except Error String :=
  match r with
  | .ok t => .ok t
  | .error _ => .error (.SerializingField fieldName)

/-- The `ok_or_return_err!` macro (src/logs.rs): wrap a serde failure into a
field-scoped `DeserializingField` error. -/
def okOrReturnErr {α : Type} (r : Except Unit α) (fieldName : String) :
    Except Error α :=
  match r with
  | .ok t => .ok t
  | .error _ => .error (.DeserializingField fieldName)

/-- The serialization part of LogModel::from (src/database/model.rs): each
field is serialized in struct-literal order, the first failure aborting with
that field's error. -/
def LogModel.serializeFields {S : Type} (codec : Codec S) (id : Int)
    (value : SimpleLog) (source : S) : Except Error LogModel :=
  match serializeOrReturnErr (codec.ser source) "source" with
  | .error e => .error e
  | .ok src =>
    match serializeOrReturnErr (jsonSerString value.timestamp) "timestamp" with
    | .error e => .error e
    | .ok ts =>
      match serializeOrReturnErr (jsonSerLevel value.level) "level" with
      | .error e => .error e
      | .ok lv =>
        match serializeOrReturnErr (jsonSerString value.location) "location" with
        | .error e => .error e
        | .ok loc =>
          match serializeOrReturnErr (jsonSerString value.content) "content" with
          | .error e => .error e
          | .ok ct => .ok ⟨id, src, ts, lv, loc, ct⟩

/-- LogModel::from (src/database/model.rs): the `id` field is evaluated first
(`NEXT_LOG_ID.fetch_add(1) as i32`), so the id is consumed before any
serialization is attempted; the counter advances in either outcome. -/
def LogModel.fromSimpleLog {S : Type} (codec : Codec S) (c : Nat)
    (value : SimpleLog) (source : S) : Nat × Except Error LogModel :=
  ((fetchAddNextLogId c).2,
    LogModel.serializeFields codec (u32AsI32 (fetchAddNextLogId c).1) value source)

/-- Outcome of one save_log call: the new counter state, the new table
contents, and the returned `Result<rows_affected>`. -/
structure SaveResult where
  counter : Nat
  db : List LogModel
  result : Except Error Nat

/-- LogManager::save_log (src/manager.rs): build the row via LogModel::from,
then insert it; a serialization failure aborts before the insert.  The insert
itself is modelled as succeeding with one row affected. -/
def saveLog {S : Type} (codec : Codec S) (c : Nat) (db : List LogModel)
    (log : SimpleLog) (source : S) : SaveResult :=
  let step := LogModel.fromSimpleLog codec c log source
  match step.2 with
  | .error e => ⟨step.1, db, .error e⟩
  | .ok m => ⟨step.1, db ++ [m], .ok 1⟩

/-- The ids consumed by a sequence of save_log calls starting from counter
state `c` (every call burns an id, succeed or fail). -/
def assignedIds {S : Type} (codec : Codec S) :
    Nat → List LogModel → List (SimpleLog × S) → List Nat
  | _, _, [] => []
  | c, db, (l, s) :: rest =>
    (fetchAddNextLogId c).1 ::
      assignedIds codec (saveLog codec c db l s).counter (saveLog codec c db l s).db rest

/-- Log::from (src/logs.rs): hydrate a stored row, deserializing each field in
struct-literal order, the first failure aborting with that field's error. -/
def Log.fromModel {S : Type} (codec : Codec S) (m : LogModel) :
    Except Error (Log S) :=
  match okOrReturnErr (codec.deser m.source) "source" with
  | .error e => .error e
  | .ok src =>
    match okOrReturnErr (jsonDecodeString m.timestamp) "timestamp" with
    | .error e => .error e
    | .ok ts =>
      match okOrReturnErr (Level.deserialize m.level) "level" with
      | .error e => .error e
      | .ok lv =>
        match okOrReturnErr (jsonDecodeString m.location) "location" with
        | .error e => .error e
        | .ok loc =>
          match okOrReturnErr (jsonDecodeString m.content) "content" with
          | .error e => .error e
          | .ok ct => .ok ⟨m.id, src, ts, lv, loc, ct⟩

/-- All suffixes of a character list, longest first. -/
def tailsList : List Char → List (List Char)
  | [] => [[]]
  | c :: cs => (c :: cs) :: tailsList cs

/-- ASCII lowercase folding, as sqlite's default LIKE applies to A-Z. -/
def charLower (c : Char) : Char :=
  if 'A' ≤ c ∧ c ≤ 'Z' then Char.ofNat (c.toNat + 32) else c

/-- sqlite LIKE matching: `%` matches any sequence, `_` any single character,
other characters compare ASCII-case-insensitively. -/
def likeMatchAux : List Char → List Char → Bool
  | [], t => t.isEmpty
  | '%' :: ps, t => (tailsList t).any (fun suf => likeMatchAux ps suf)
  | '_' :: ps, t =>
    match t with
    | [] => false
    | _ :: ts => likeMatchAux ps ts
  | q :: ps, t =>
    match t with
    | [] => false
    | c :: ts => (charLower q == charLower c) && likeMatchAux ps ts

/-- sqlite `LIKE` on strings (the `.like(..)` filter in src/manager.rs). -/
def likeMatch (pattern text : String) : Bool :=
  likeMatchAux pattern.data text.data

/-- Pagination (src/manager.rs, `enum Pagination`); both fields are `usize`. -/
inductive Pagination where
  | page (page pageSize : Nat)

/-- The offset computation in search (src/manager.rs):
`((page - 1) * page_size)` in wrapping usize arithmetic. -/
def pageOffsetUsize (p k : Nat) : Nat := usizeMul (usizeSub p 1) k

/-- sqlite semantics of `.limit(l).offset(o)` with `i64` arguments: a negative
limit means no limit, a negative offset means no offset. -/
def sqliteLimitOffset {α : Type} (limit offset : Int) (rows : List α) : List α :=
  let dropped := rows.drop offset.toNat
  if limit < 0 then dropped else dropped.take limit.toNat

/-- Application of the optional pagination to the filtered query
(src/manager.rs): `query.limit(page_size as i64).offset(((page - 1) * page_size) as i64)`. -/
def applyPagination {α : Type} : Option Pagination → List α → List α
  | none, rows => rows
  | some (.page p k), rows =>
    sqliteLimitOffset (i64OfUsize k) (i64OfUsize (pageOffsetUsize p k)) rows

/-- The conjunctive row filter built in search (src/manager.rs): serialized
source equality when a source filter is present, serialized level membership
when the level list is non-empty, LIKE `%term%` on the stored content when a
content search is present. -/
def rowMatches (srcStr : Option String) (levelSers : List String)
    (contentSearch : Option String) (m : LogModel) : Bool :=
  (match srcStr with
   | some s => m.source == s
   | none => true) &&
  (if levelSers.isEmpty then true else levelSers.contains m.level) &&
  (match contentSearch with
   | some t => likeMatch ("%" ++ t ++ "%") m.content
   | none => true)

/-- Row hydration over a loaded page (the for_each in search): successes and
per-row errors are collected separately, in row order. -/
def hydrateAll {S : Type} (codec : Codec S) :
    List LogModel → List (Log S) × List Error
  | [] => ([], [])
  | m :: ms =>
    let rest := hydrateAll codec ms
    match Log.fromModel codec m with
    | .ok l => (l :: rest.1, rest.2)
    | .error e => (rest.1, e :: rest.2)

/-- Outcome of one search call: the returned `Result<(total_count, logs)>`
plus the single aggregated warning diagnostic, if any. -/
structure SearchOutcome (S : Type) where
  result : Except Error (Int × List (Log S))
  warning : Option Error

/-- The body of search after the source filter is serialized: count over the
full filter, paginate, load, hydrate with local error aggregation. -/
def searchCore {S : Type} (codec : Codec S) (db : List LogModel)
    (srcStr : Option String) (levelSers : List String)
    (contentSearch : Option String) (pagination : Option Pagination) :
    SearchOutcome S :=
  let matched := db.filter (rowMatches srcStr levelSers contentSearch)
  let totalCount : Int := matched.length
  let pageRows := applyPagination pagination matched
  let hydrated := hydrateAll codec pageRows
  ⟨.ok (totalCount, hydrated.1),
    if hydrated.2.isEmpty then none else some (.Errors hydrated.2)⟩

/-- The serialized form of the optional source filter, with the
`serialize_or_return_err!` early return. -/
def sourceSer {S : Type} (codec : Codec S) : Option S → Except Error (Option String)
  | none => .ok none
  | some s =>
    match serializeOrReturnErr (codec.ser s) "source" with
    | .error e => .error e
    | .ok str => .ok (some str)

/-- LogManager::search (src/manager.rs). -/
def search {S : Type} (codec : Codec S) (db : List LogModel) (source : Option S)
    (pagination : Option Pagination) (contentSearch : Option String)
    (levels : List Level) : SearchOutcome S :=
  let levelSers := levels.map Level.serialize
  match source with
  | none => searchCore codec db none levelSers contentSearch pagination
  | some s =>
    match serializeOrReturnErr (codec.ser s) "source" with
    | .error e => ⟨.error e, none⟩
    | .ok str => searchCore codec db (some str) levelSers contentSearch pagination

/-- Modelled from the spec: literal substring containment ("the record's
content contains the search term as a literal substring"), used to compare
the spec's content-filter predicate against the code's LIKE filter. -/
def containsSub (needle : List Char) : List Char → Bool
  | [] => needle.isEmpty
  | c :: hs => needle.isPrefixOf (c :: hs) || containsSub needle hs

instance {ε α : Type} [DecidableEq ε] [DecidableEq α] : DecidableEq (Except ε α) := fun a b =>
  match a, b with
  | .error x, .error y =>
    if h : x = y then .isTrue (by rw [h]) else .isFalse (fun hh => h (Except.error.inj hh))
  | .ok x, .ok y =>
    if h : x = y then .isTrue (by rw [h]) else .isFalse (fun hh => h (Except.ok.inj hh))
  | .error _, .ok _ => .isFalse (fun hh => Except.noConfusion hh)
  | .ok _, .error _ => .isFalse (fun hh => Except.noConfusion hh)

/-- A caller instantiation with `S = String`: serde_json on `String` values. -/
def strCodec : Codec String := ⟨jsonSerString, jsonDecodeString⟩

/-- A caller instantiation whose `Serialize` implementation always fails. -/
def unitFailCodec : Codec Unit := ⟨fun _ => .error (), fun _ => .error ()⟩

/-- A caller instantiation modelling legal serde implementations that do not
round-trip: `Serialize` emits the JSON number 0, `Deserialize` rejects it.
The trait bounds in the code accept such a type. -/
def lossyCodec : Codec Unit := ⟨fun _ => .ok "0", fun _ => .error ()⟩

/-- A caller instantiation with `S = Unit`: serde_json serializes `()` to `null`. -/
def unitCodec : Codec Unit :=
  ⟨fun _ => .ok "null", fun s => if s = "null" then .ok () else .error ()⟩

/-- Concrete caller input used by closed witnesses. -/
def cexSimple : SimpleLog := ⟨"t", .info, "l", "x"⟩

/-- Concrete well-formed stored row used by closed witnesses. -/
def cexRow : LogModel := ⟨1, "\"A\"", "\"t\"", "\"Info\"", "\"l\"", "\"x\""⟩

/-- Hydration of `cexRow` under `strCodec`. -/
def cexLog : Log String := ⟨1, "A", "t", .info, "l", "x"⟩

/-- Second well-formed stored row. -/
def sampleRow2 : LogModel := ⟨2, "\"A\"", "\"t\"", "\"Info\"", "\"l\"", "\"y\""⟩

/-- Hydration of `sampleRow2` under `strCodec`. -/
def sampleLog2 : Log String := ⟨2, "A", "t", .info, "l", "y"⟩

/-- Third well-formed stored row. -/
def sampleRow3 : LogModel := ⟨3, "\"A\"", "\"t\"", "\"Info\"", "\"l\"", "\"z\""⟩

/-- A corrupt stored row: its level column holds no valid serialized level. -/
def badRow : LogModel := ⟨4, "\"A\"", "\"t\"", "bad", "\"l\"", "\"w\""⟩

/-- A stored row whose level column holds a non-canonical but
serde-acceptable encoding: the canonical token padded with whitespace. -/
def wsRow : LogModel := ⟨5, "\"A\"", "\"t\"", " \"Info\"", "\"l\"", "\"q\""⟩

/-- Hydration of `wsRow` under `strCodec`. -/
def wsLog : Log String := ⟨5, "A", "t", .info, "l", "q"⟩

/-- Store whose persisted maximum id is the largest positive i32. -/
def cexDb : List LogModel := [⟨2147483647, "", "", "", "", ""⟩]

/-- Store holding a corrupted (negative) persisted id. -/
def negDb : List LogModel := [⟨-3, "", "", "", "", ""⟩]

/- ### Helper lemmas -/

theorem saveLog_counter {S : Type} (codec : Codec S) (c : Nat) (db : List LogModel)
    (l : SimpleLog) (s : S) : (saveLog codec c db l s).counter = (c + 1) % 2 ^ 32 := by
  simp only [saveLog, LogModel.fromSimpleLog, fetchAddNextLogId]
  split <;> rfl

theorem assignedIds_length {S : Type} (codec : Codec S) :
    ∀ (calls : List (SimpleLog × S)) (c : Nat) (db : List LogModel),
      (assignedIds codec c db calls).length = calls.length
  | [], _, _ => rfl
  | (l, s) :: rest, c, db => by
    simp [assignedIds, assignedIds_length codec rest]

theorem assignedIds_get {S : Type} (codec : Codec S) :
    ∀ (calls : List (SimpleLog × S)) (c : Nat) (db : List LogModel) (n : Nat),
      n < calls.length →
      (assignedIds codec c db calls)[n]? = some ((c + n) % 2 ^ 32)
  | [], _, _, n, h => absurd h (by simp)
  | (l, s) :: rest, c, db, 0, _ => by
    simp [assignedIds, fetchAddNextLogId]
  | (l, s) :: rest, c, db, n + 1, h => by
    have ih := assignedIds_get codec rest (saveLog codec c db l s).counter
      (saveLog codec c db l s).db n (by simpa using Nat.lt_of_succ_lt_succ h)
    simp only [assignedIds]
    rw [List.getElem?_cons_succ, ih, saveLog_counter]
    congr 1
    rw [Nat.mod_add_mod]
    omega

theorem hydrateAll_fst {S : Type} (codec : Codec S) :
    ∀ rows : List LogModel,
      (hydrateAll codec rows).1
        = rows.filterMap (fun m => (Log.fromModel codec m).toOption)
  | [] => rfl
  | m :: ms => by
    simp only [hydrateAll, List.filterMap_cons]
    cases h : Log.fromModel codec m <;>
      simp [h, Except.toOption, hydrateAll_fst codec ms]

theorem hydrateAll_length {S : Type} (codec : Codec S) :
    ∀ rows : List LogModel,
      (hydrateAll codec rows).1.length + (hydrateAll codec rows).2.length = rows.length
  | [] => rfl
  | m :: ms => by
    have ih := hydrateAll_length codec ms
    simp only [hydrateAll]
    cases h : Log.fromModel codec m <;> simp [h] <;> omega

theorem hydrateAll_snd_length {S : Type} (codec : Codec S) :
    ∀ rows : List LogModel,
      (hydrateAll codec rows).2.length
        = (rows.filter (fun m => !(Log.fromModel codec m).isOk)).length
  | [] => rfl
  | m :: ms => by
    have ih := hydrateAll_snd_length codec ms
    simp only [hydrateAll, List.filter_cons]
    cases h : Log.fromModel codec m <;> simp [h, Except.isOk, Except.toBool, ih]

theorem hexVal_hexDigit : ∀ x : Nat, x < 16 → hexVal (hexDigit x) = some x := by
  decide

theorem jsonStringBody_escape_append (c : Char) (rest : List Char) :
    jsonStringBody (jsonEscapeChar c ++ rest)
      = (jsonStringBody rest).map (fun cs => c :: cs) := by
  unfold jsonStringBody jsonEscapeChar
  by_cases h1 : c = '"'
  · subst h1; simp [jsonStrScan]
  rw [if_neg h1]
  by_cases h2 : c = '\\'
  · subst h2; simp [jsonStrScan]
  rw [if_neg h2]
  by_cases h3 : c = '\x08'
  · subst h3; simp [jsonStrScan]
  rw [if_neg h3]
  by_cases h4 : c = '\t'
  · subst h4; simp [jsonStrScan]
  rw [if_neg h4]
  by_cases h5 : c = '\n'
  · subst h5; simp [jsonStrScan]
  rw [if_neg h5]
  by_cases h6 : c = '\x0c'
  · subst h6; simp [jsonStrScan]
  rw [if_neg h6]
  by_cases h7 : c = '\r'
  · subst h7; simp [jsonStrScan]
  rw [if_neg h7]
  by_cases h8 : c.toNat < 32
  · rw [if_pos h8]
    have hv0 : hexVal '0' = some 0 := rfl
    have hv3 : hexVal (hexDigit (c.toNat / 16)) = some (c.toNat / 16) :=
      hexVal_hexDigit _ (by omega)
    have hv4 : hexVal (hexDigit (c.toNat % 16)) = some (c.toNat % 16) :=
      hexVal_hexDigit _ (by omega)
    have hmod : c.toNat / 16 * 16 + c.toNat % 16 = c.toNat := by omega
    have hsur : ¬ (55296 ≤ c.toNat ∧ c.toNat ≤ 57343) := by omega
    simp [jsonStrScan, hv0, hv3, hv4, hmod, hsur, Char.ofNat_toNat]
  · rw [if_neg h8]
    simp only [List.singleton_append, jsonStrScan]
    rw [if_neg h1, if_neg h2, if_neg h8]
    simp

theorem jsonStringBody_encode : ∀ cs : List Char,
    jsonStringBody ((cs.map jsonEscapeChar).flatten ++ ['"']) = some cs
  | [] => rfl
  | c :: cs => by
    rw [List.map_cons, List.flatten_cons, List.append_assoc,
      jsonStringBody_escape_append, jsonStringBody_encode cs]
    rfl

theorem jsonDecode_encode (s : String) :
    jsonDecodeString (jsonEncodeString s) = .ok s := by
  show (match jsonStringBody ((s.data.map jsonEscapeChar).flatten ++ ['"']) with
    | some cs => (Except.ok (⟨cs⟩ : String) : Except Unit String)
    | none => Except.error ()) = .ok s
  rw [jsonStringBody_encode s.data]

theorem Level.deserialize_serialize :
    ∀ l : Level, Level.deserialize (Level.serialize l) = .ok l := by
  intro l
  cases l <;> rfl

theorem contains_iff_mem (a : String) (l : List String) :
    l.contains a = true ↔ a ∈ l := by
  simp [List.contains, List.elem_iff]

theorem rowMatches_some_iff (srcStr : String) (levelSers : List String) (term : String)
    (m : LogModel) :
    rowMatches (some srcStr) levelSers (some term) m = true ↔
      (m.source = srcStr ∧ (levelSers = [] ∨ m.level ∈ levelSers) ∧
        likeMatch ("%" ++ term ++ "%") m.content = true) := by
  simp only [rowMatches, Bool.and_eq_true, beq_iff_eq]
  constructor
  · rintro ⟨⟨h1, h2⟩, h3⟩
    refine ⟨h1, ?_, h3⟩
    by_cases he : levelSers.isEmpty
    · exact Or.inl (List.isEmpty_iff.mp he)
    · rw [if_neg he] at h2
      exact Or.inr ((contains_iff_mem _ _).mp h2)
  · rintro ⟨h1, h2, h3⟩
    refine ⟨⟨h1, ?_⟩, h3⟩
    rcases h2 with h2 | h2
    · subst h2; rfl
    · by_cases he : levelSers.isEmpty
      · cases List.isEmpty_iff.mp he; cases h2
      · rw [if_neg he]
        exact (contains_iff_mem _ _).mpr h2

theorem search_eq_core {S : Type} (codec : Codec S) (db : List LogModel)
    (source : Option S) (srcOpt : Option String) (pag : Option Pagination)
    (cs : Option String) (levels : List Level)
    (h : sourceSer codec source = .ok srcOpt) :
    search codec db source pag cs levels
      = searchCore codec db srcOpt (levels.map Level.serialize) cs pag := by
  cases source with
  | none =>
    simp only [sourceSer] at h
    injection h with h
    subst h
    rfl
  | some s =>
    simp only [sourceSer] at h
    cases hs : serializeOrReturnErr (codec.ser s) "source" with
    | error e => rw [hs] at h; cases h
    | ok str =>
      rw [hs] at h
      injection h with h
      subst h
      simp [search, hs]

theorem applyPagination_page {α : Type} (p k : Nat) (rows : List α)
    (hp : 1 ≤ p) (hp2 : p < 2 ^ 64) (hk : k < 2 ^ 63) (hb : (p - 1) * k < 2 ^ 63) :
    applyPagination (some (.page p k)) rows = (rows.drop ((p - 1) * k)).take k := by
  have hsub : usizeSub p 1 = p - 1 := by unfold usizeSub; omega
  have hmul : pageOffsetUsize p k = (p - 1) * k := by
    unfold pageOffsetUsize usizeMul
    rw [hsub]
    exact Nat.mod_eq_of_lt (lt_trans hb (by norm_num))
  have hofs : i64OfUsize ((p - 1) * k) = (((p - 1) * k : Nat) : Int) := by
    unfold i64OfUsize
    rw [Nat.mod_eq_of_lt (lt_trans hb (by norm_num)), if_pos hb]
  have hlim : i64OfUsize k = (k : Int) := by
    unfold i64OfUsize
    rw [Nat.mod_eq_of_lt (lt_trans hk (by norm_num)), if_pos hk]
  simp only [applyPagination, sqliteLimitOffset, hmul, hofs, hlim]
  rw [if_neg (not_lt.mpr (Int.natCast_nonneg k)), Int.toNat_natCast, Int.toNat_natCast]

theorem dbMaxId_lt (db : List LogModel) (hrange : ∀ m ∈ db, m.id < 2 ^ 31) :
    ∀ v, dbMaxId db = some v → v < 2 ^ 31 := by
  induction db with
  | nil => intro v h; cases h
  | cons m ms ih =>
    intro v h
    simp only [dbMaxId] at h
    cases hms : dbMaxId ms with
    | none =>
      rw [hms] at h
      injection h with h
      subst h
      exact hrange m (by simp)
    | some w =>
      rw [hms] at h
      injection h with h
      subst h
      have h1 := ih (fun x hx => hrange x (by simp [hx])) w hms
      have h2 := hrange m (by simp)
      exact max_lt h1 h2

theorem getNextLogId_ok_inv (db : List LogModel) (b : Nat)
    (h : getNextLogId db = .ok b) :
    ¬ ((dbMaxId db).getD 0 < 0) ∧ b = i32AsU32 ((dbMaxId db).getD 0) := by
  simp only [getNextLogId] at h
  split at h
  · cases h
  · exact ⟨by assumption, (Except.ok.inj h).symm⟩

theorem getNextLogId_ok_lt (db : List LogModel) (hrange : ∀ m ∈ db, m.id < 2 ^ 31)
    (b : Nat) (h : getNextLogId db = .ok b) : b < 2 ^ 31 := by
  obtain ⟨hneg, hb⟩ := getNextLogId_ok_inv db b h
  subst hb
  cases hm : dbMaxId db with
  | none => simp [hm, i32AsU32]
  | some v =>
    have hv := dbMaxId_lt db hrange v hm
    rw [hm] at hneg
    simp only [Option.getD] at hneg ⊢
    unfold i32AsU32
    rw [Int.emod_eq_of_lt (by omega) (by omega)]
    omega

theorem managerNew_ok (db : List LogModel) (b : Nat) (h : getNextLogId db = .ok b) :
    managerNew db = .ok ((b + 1) % 2 ^ 32) := by
  unfold managerNew
  rw [h]

theorem managerNew_ok_lt (db : List LogModel) (s : Nat) (h : managerNew db = .ok s) :
    s < 2 ^ 32 := by
  unfold managerNew at h
  cases hg : getNextLogId db with
  | error e => rw [hg] at h; cases h
  | ok n =>
    rw [hg] at h
    injection h with h
    subst h
    exact Nat.mod_lt _ (by norm_num)

theorem filterMap_toOption_length {S : Type} (codec : Codec S) :
    ∀ rows : List LogModel, (∀ m ∈ rows, (Log.fromModel codec m).isOk = true) →
      (rows.filterMap (fun m => (Log.fromModel codec m).toOption)).length = rows.length
  | [], _ => rfl
  | m :: ms, h => by
    have hm := h m (by simp)
    have ih := filterMap_toOption_length codec ms (fun x hx => h x (by simp [hx]))
    cases hfm : Log.fromModel codec m with
    | error e => rw [hfm] at hm; simp [Except.isOk, Except.toBool] at hm
    | ok l =>
      have hstep : (Log.fromModel codec m).toOption = some l := by rw [hfm]; rfl
      rw [List.filterMap_cons]
      simp only [hstep, List.length_cons, ih]

theorem toOption_eq_some {ε α : Type} (r : Except ε α) (a : α) :
    r.toOption = some a ↔ r = .ok a := by
  cases r <;> simp [Except.toOption]

theorem searchCore_result {S : Type} (codec : Codec S) (db : List LogModel)
    (srcStr : Option String) (levelSers : List String) (cs : Option String)
    (pag : Option Pagination) :
    (searchCore codec db srcStr levelSers cs pag).result =
      .ok (((db.filter (rowMatches srcStr levelSers cs)).length : Int),
        (hydrateAll codec
          (applyPagination pag (db.filter (rowMatches srcStr levelSers cs)))).1) := rfl

theorem searchCore_warning {S : Type} (codec : Codec S) (db : List LogModel)
    (srcStr : Option String) (levelSers : List String) (cs : Option String)
    (pag : Option Pagination) :
    (searchCore codec db srcStr levelSers cs pag).warning =
      if (hydrateAll codec
          (applyPagination pag (db.filter (rowMatches srcStr levelSers cs)))).2.isEmpty
      then none
      else some (.Errors (hydrateAll codec
        (applyPagination pag (db.filter (rowMatches srcStr levelSers cs)))).2) := rfl

/- ### Claim theorems -/

/-- C5 (amended): deserialization is a left inverse of serialization for the
five level values and, for every string value, for the repo-owned String
codec (serde_json on `String`, covering every canonical string this
development stores); serialization is deterministic — logically equal values
serialize to identical strings, for levels and for any source-type codec
(serialization in the model, like serde_json::to_string, is a pure function
of the value).  For the opaque caller-supplied source type, the round-trip
law is a contract the code assumes of the caller's serde implementations but
does not enforce. -/
theorem codec_roundtrip_determinism :
    (∀ l : Level, Level.deserialize (Level.serialize l) = .ok l) ∧
    (∀ s t : String, strCodec.ser s = .ok t → strCodec.deser t = .ok s) ∧
    (∀ l1 l2 : Level, l1 = l2 → Level.serialize l1 = Level.serialize l2) ∧
    (∀ (T : Type) (codec : Codec T) (v1 v2 : T), v1 = v2 → codec.ser v1 = codec.ser v2) := by
  refine ⟨Level.deserialize_serialize, ?_,
    fun _ _ h => by rw [h], fun _ _ _ _ h => by rw [h]⟩
  intro s t h
  have h' : Except.ok (jsonEncodeString s) = (Except.ok t : Except Unit String) := h
  injection h' with h'
  subst h'
  exact jsonDecode_encode s

/-- Witness for C5 at the level `info` and the string "a b" under `strCodec`.
-/
theorem codec_roundtrip_determinism_witness :
    Level.deserialize (Level.serialize .info) = .ok .info ∧
    strCodec.deser "\"a b\"" = .ok "a b" ∧
    Level.serialize .info = Level.serialize .info ∧
    strCodec.ser "A" = strCodec.ser "A" :=
  ⟨codec_roundtrip_determinism.1 .info,
   codec_roundtrip_determinism.2.1 "a b" "\"a b\"" rfl,
   codec_roundtrip_determinism.2.2.1 .info .info rfl,
   codec_roundtrip_determinism.2.2.2 String strCodec "A" "A" rfl⟩

/-- C5 counterexample: the trait bounds accept caller types whose serde
implementations do not round-trip; for `lossyCodec` (Serialize emits the
JSON number 0, Deserialize rejects it) deserializing the serialization of
`()` fails instead of returning `()`. -/
theorem codec_roundtrip_cex :
    lossyCodec.ser () = .ok "0" ∧
    lossyCodec.deser "0" = .error () ∧
    (Except.error () : Except Unit Unit) ≠ .ok () :=
  ⟨rfl, rfl, by decide⟩

/-- C7: constructing a manager over a store whose persisted max(id) is
negative fails with the NegativeLogID error (the spec's InvalidPersistedId);
a non-negative or absent maximum bootstraps successfully. -/
theorem bootstrap_negative_max (db : List LogModel) :
    ((dbMaxId db).getD 0 < 0 →
      managerNew db = .error (.NegativeLogID ((dbMaxId db).getD 0))) ∧
    (0 ≤ (dbMaxId db).getD 0 → ∃ s, managerNew db = .ok s) := by
  constructor
  · intro hneg
    simp only [managerNew, getNextLogId, if_pos hneg]
  · intro hpos
    simp only [managerNew, getNextLogId, if_neg (not_lt.mpr hpos)]
    exact ⟨_, rfl⟩

/-- Witness for C7 at `negDb` (stored max id −3) and `cexDb` (max id 2^31−1). -/
theorem bootstrap_negative_max_witness :
    ((dbMaxId negDb).getD 0 < 0 ∧
      managerNew negDb = .error (.NegativeLogID ((dbMaxId negDb).getD 0))) ∧
    (0 ≤ (dbMaxId cexDb).getD 0 ∧ ∃ s, managerNew cexDb = .ok s) :=
  ⟨⟨by decide, (bootstrap_negative_max negDb).1 (by decide)⟩,
   ⟨by decide, (bootstrap_negative_max cexDb).2 (by decide)⟩⟩

/-- C9 (amended): for page ≥ 1 the usize subtraction in the offset
computation does not underflow, and the computed offset equals the intended
(page − 1) · page_size whenever that product fits in usize; at page = 0 the
unguarded subtraction wraps to 2^64 − 1. -/
theorem page_offset_safe (p k : Nat) (hp : 1 ≤ p) (hp2 : p < 2 ^ 64)
    (hk : k < 2 ^ 64) (hb : (p - 1) * k < 2 ^ 64) :
    usizeSub p 1 = p - 1 ∧ pageOffsetUsize p k = (p - 1) * k ∧
    usizeSub 0 1 = 2 ^ 64 - 1 := by
  have hsub : usizeSub p 1 = p - 1 := by unfold usizeSub; omega
  refine ⟨hsub, ?_, by decide⟩
  unfold pageOffsetUsize usizeMul
  rw [hsub]
  exact Nat.mod_eq_of_lt hb

/-- Witness for C9 at page 3, page_size 10. -/
theorem page_offset_safe_witness :
    (1 ≤ 3 ∧ (3 : Nat) < 2 ^ 64 ∧ (10 : Nat) < 2 ^ 64 ∧ ((3 : Nat) - 1) * 10 < 2 ^ 64) ∧
    (usizeSub 3 1 = 3 - 1 ∧ pageOffsetUsize 3 10 = (3 - 1) * 10 ∧
      usizeSub 0 1 = 2 ^ 64 - 1) :=
  ⟨⟨by norm_num, by norm_num, by norm_num, by norm_num⟩,
   page_offset_safe 3 10 (by norm_num) (by norm_num) (by norm_num) (by norm_num)⟩

/-- C9 counterexample: at page = 2^63 + 1 (which satisfies page ≥ 1) with
page_size 2 the computed offset wraps to 0, while the intended 0-based offset
(page − 1) · page_size is 2^64. -/
theorem page_offset_overflow_cex :
    1 ≤ (2 ^ 63 + 1 : Nat) ∧ pageOffsetUsize (2 ^ 63 + 1) 2 = 0 ∧
    ((2 ^ 63 + 1 : Nat) - 1) * 2 = 2 ^ 64 ∧ (0 : Nat) ≠ 2 ^ 64 :=
  ⟨by norm_num, by decide, by norm_num, by norm_num⟩

/-- C10: ids are allocated as u32 and persisted through an unchecked `as i32`
cast: ids up to 2^31 − 1 are stored unchanged, larger ids wrap modulo 2^32 to
a negative stored value; the bootstrap path reads the stored maximum back and
applies the reverse i32 → u32 reinterpretation. -/
theorem stored_id_cast {S : Type} (codec : Codec S) (c : Nat) (hc : c < 2 ^ 32) :
    (c < 2 ^ 31 → u32AsI32 c = (c : Int)) ∧
    (2 ^ 31 ≤ c → u32AsI32 c = (c : Int) - 2 ^ 32 ∧ u32AsI32 c < 0) ∧
    (∀ (db : List LogModel) (l : SimpleLog) (src : S) (srcStr : String),
      codec.ser src = .ok srcStr →
      ((saveLog codec c db l src).db.getLast?.map LogModel.id) = some (u32AsI32 c)) ∧
    (∀ i : Int, 0 ≤ i → i < 2 ^ 31 → i32AsU32 i = i.toNat) ∧
    (∀ db : List LogModel, ¬ ((dbMaxId db).getD 0 < 0) →
      getNextLogId db = .ok (i32AsU32 ((dbMaxId db).getD 0))) := by
  refine ⟨?_, ?_, ?_, ?_, ?_⟩
  · intro h
    unfold u32AsI32
    rw [Nat.mod_eq_of_lt hc, if_pos h]
  · intro h
    unfold u32AsI32
    rw [Nat.mod_eq_of_lt hc, if_neg (not_lt.mpr h)]
    exact ⟨rfl, by omega⟩
  · intro db l src srcStr hok
    unfold saveLog LogModel.fromSimpleLog LogModel.serializeFields
    simp only [serializeOrReturnErr, jsonSerString, jsonSerLevel, hok, fetchAddNextLogId,
      Nat.mod_eq_of_lt hc]
    simp [List.getLast?_concat]
  · intro i h1 h2
    unfold i32AsU32
    rw [Int.emod_eq_of_lt h1 (by omega)]
  · intro db h
    simp only [getNextLogId, if_neg h]

/-- Witness for C10 at the first out-of-range id 2^31 and a concrete save. -/
theorem stored_id_cast_witness :
    ((2 ^ 31 : Nat) < 2 ^ 32) ∧
    (u32AsI32 (2 ^ 31) = ((2 ^ 31 : Nat) : Int) - 2 ^ 32 ∧ u32AsI32 (2 ^ 31) < 0) ∧
    strCodec.ser "A" = .ok "\"A\"" ∧
    ((saveLog strCodec (2 ^ 31) [] cexSimple "A").db.getLast?.map LogModel.id)
      = some (u32AsI32 (2 ^ 31)) :=
  ⟨by norm_num,
   (stored_id_cast strCodec (2 ^ 31) (by norm_num)).2.1 (le_refl _),
   rfl,
   (stored_id_cast strCodec (2 ^ 31) (by norm_num)).2.2.1 [] cexSimple "A" "\"A\"" rfl⟩

/-- C8: NEXT_LOG_ID is one process-wide counter, not per-manager state:
constructing a second manager stores the second database's seed into the
shared counter — independently of whatever the first construction stored —
and the next id consumed through any manager's save path continues from that
second seed. -/
theorem next_log_id_process_wide {S : Type} (codecA : Codec S)
    (db1 db2 : List LogModel) (s1 s2 : Nat)
    (h1 : managerNew db1 = .ok s1) (h2 : managerNew db2 = .ok s2) :
    ((managerNew db1).bind fun _ => managerNew db2) = .ok s2 ∧
    (fetchAddNextLogId s2).1 = s2 ∧
    (∀ (db : List LogModel) (l : SimpleLog) (src : S),
      (saveLog codecA s2 db l src).counter = (s2 + 1) % 2 ^ 32) := by
  refine ⟨?_, ?_, fun db l src => saveLog_counter codecA s2 db l src⟩
  · rw [h1]
    simpa [Except.bind] using h2
  · have hs2 := managerNew_ok_lt db2 s2 h2
    simp only [fetchAddNextLogId]
    omega

/-- Witness for C8: an empty first store (seed 1) and `cexRow` as the second
store (seed 2); allocation continues from 2. -/
theorem next_log_id_process_wide_witness :
    (managerNew ([] : List LogModel) = .ok 1 ∧ managerNew [cexRow] = .ok 2) ∧
    (((managerNew ([] : List LogModel)).bind fun _ => managerNew [cexRow]) = .ok 2 ∧
      (fetchAddNextLogId 2).1 = 2 ∧
      (∀ (db : List LogModel) (l : SimpleLog) (src : String),
        (saveLog strCodec 2 db l src).counter = (2 + 1) % 2 ^ 32)) :=
  ⟨⟨rfl, rfl⟩, next_log_id_process_wide strCodec [] [cexRow] 1 2 rfl rfl⟩

/-- C6 (amended): when serialization of the source fails, save_log returns
the field-scoped SerializingField error, inserts no row, and still consumes
the allocated id; the next save receives a strictly greater id and the burned
id is not reassigned, provided the u32 counter does not wrap.  (In the model,
as in serde_json, the String and Level fields serialize infallibly, so the
source field is the only one whose serialization can fail; each field aborts
the save with its own field name by the same early-return shape.) -/
theorem saveLog_ser_failure {S : Type} (codec : Codec S) (c : Nat)
    (db : List LogModel) (l : SimpleLog) (src : S)
    (hc : c + 1 < 2 ^ 32) (hfail : codec.ser src = .error ()) :
    (saveLog codec c db l src).result = .error (.SerializingField "source") ∧
    (saveLog codec c db l src).db = db ∧
    (saveLog codec c db l src).counter = c + 1 ∧
    (fetchAddNextLogId c).1 = c ∧
    (fetchAddNextLogId ((saveLog codec c db l src).counter)).1 = c + 1 ∧
    c < c + 1 ∧
    (∀ (calls : List (SimpleLog × S)) (n : Nat), n < calls.length →
      c + 1 + calls.length ≤ 2 ^ 32 →
      (assignedIds codec (c + 1) db calls)[n]? ≠ some c) := by
  have hsave : saveLog codec c db l src
      = ⟨(c + 1) % 2 ^ 32, db, .error (.SerializingField "source")⟩ := by
    unfold saveLog LogModel.fromSimpleLog LogModel.serializeFields
    simp [serializeOrReturnErr, hfail, fetchAddNextLogId]
  refine ⟨by rw [hsave], by rw [hsave], ?_, ?_, ?_, by omega, ?_⟩
  · rw [hsave]
    exact Nat.mod_eq_of_lt hc
  · simp only [fetchAddNextLogId]
    omega
  · rw [hsave]
    simp only [fetchAddNextLogId]
    omega
  · intro calls n hn hlen
    rw [assignedIds_get codec calls (c + 1) db n hn]
    intro heq
    injection heq with heq
    rw [Nat.mod_eq_of_lt (by omega : c + 1 + n < 2 ^ 32)] at heq
    omega

/-- Witness for C6 at counter 5 with the always-failing source codec. -/
theorem saveLog_ser_failure_witness :
    ((5 : Nat) + 1 < 2 ^ 32 ∧ unitFailCodec.ser () = .error ()) ∧
    ((saveLog unitFailCodec 5 [] cexSimple ()).result
        = .error (.SerializingField "source") ∧
      (saveLog unitFailCodec 5 [] cexSimple ()).db = [] ∧
      (saveLog unitFailCodec 5 [] cexSimple ()).counter = 5 + 1 ∧
      (fetchAddNextLogId 5).1 = 5 ∧
      (fetchAddNextLogId ((saveLog unitFailCodec 5 [] cexSimple ()).counter)).1 = 5 + 1 ∧
      5 < 5 + 1 ∧
      (∀ (calls : List (SimpleLog × Unit)) (n : Nat), n < calls.length →
        5 + 1 + calls.length ≤ 2 ^ 32 →
        (assignedIds unitFailCodec (5 + 1) [] calls)[n]? ≠ some 5)) :=
  ⟨⟨by norm_num, rfl⟩,
   saveLog_ser_failure unitFailCodec 5 [] cexSimple () (by norm_num) rfl⟩

/-- C6 counterexample: with the counter at 2^32 − 1, a save whose source
serialization fails burns id 2^32 − 1 and wraps the counter to 0, so the next
save receives id 0 — not a strictly greater id than the burned one. -/
theorem saveLog_burned_id_wrap_cex :
    (saveLog unitFailCodec (2 ^ 32 - 1) [] cexSimple ()).result
        = .error (.SerializingField "source") ∧
    (fetchAddNextLogId (2 ^ 32 - 1)).1 = 2 ^ 32 - 1 ∧
    (saveLog unitFailCodec (2 ^ 32 - 1) [] cexSimple ()).counter = 0 ∧
    (fetchAddNextLogId 0).1 = 0 ∧
    ¬ ((2 ^ 32 - 1 : Nat) < 0) :=
  ⟨rfl, by decide, by decide, rfl, by decide⟩

/-- C1 (amended): over a bootstrap with all persisted ids in i32 range, the
allocator is seeded to bootstrap_max + 1 and the ids assigned by a sequence
of save_log calls are strictly increasing and strictly above the bootstrap
maximum — provided the u32 counter does not wrap during the sequence
(seed + number of calls ≤ 2^32). -/
theorem saveLog_ids_monotonic {S : Type} (codec : Codec S) (db0 : List LogModel)
    (b seed : Nat) (hrange : ∀ m ∈ db0, m.id < 2 ^ 31)
    (hb : getNextLogId db0 = .ok b) (hs : managerNew db0 = .ok seed)
    (calls : List (SimpleLog × S)) (i j : Nat) (hij : i < j) (hj : j < calls.length)
    (hbound : seed + calls.length ≤ 2 ^ 32) :
    seed = b + 1 ∧
    (assignedIds codec seed db0 calls)[i]? = some (seed + i) ∧
    (assignedIds codec seed db0 calls)[j]? = some (seed + j) ∧
    seed + i < seed + j ∧ b < seed + j := by
  have hblt : b < 2 ^ 31 := getNextLogId_ok_lt db0 hrange b hb
  have hseed : seed = b + 1 := by
    have hmn := managerNew_ok db0 b hb
    rw [hs] at hmn
    injection hmn with hmn
    rw [hmn]
    exact Nat.mod_eq_of_lt (by omega)
  have hi : i < calls.length := lt_trans hij hj
  have hgi := assignedIds_get codec calls seed db0 i hi
  have hgj := assignedIds_get codec calls seed db0 j hj
  rw [Nat.mod_eq_of_lt (by omega : seed + i < 2 ^ 32)] at hgi
  rw [Nat.mod_eq_of_lt (by omega : seed + j < 2 ^ 32)] at hgj
  exact ⟨hseed, hgi, hgj, by omega, by omega⟩

/-- Witness for C1 over an empty store (bootstrap max 0, seed 1) and two
calls. -/
theorem saveLog_ids_monotonic_witness :
    ((∀ m ∈ ([] : List LogModel), m.id < 2 ^ 31) ∧
      getNextLogId ([] : List LogModel) = .ok 0 ∧
      managerNew ([] : List LogModel) = .ok 1 ∧
      (0 : Nat) < 1 ∧ 1 < [(cexSimple, ()), (cexSimple, ())].length ∧
      1 + [(cexSimple, ()), (cexSimple, ())].length ≤ 2 ^ 32) ∧
    ((1 : Nat) = 0 + 1 ∧
      (assignedIds unitCodec 1 [] [(cexSimple, ()), (cexSimple, ())])[0]? = some (1 + 0) ∧
      (assignedIds unitCodec 1 [] [(cexSimple, ()), (cexSimple, ())])[1]? = some (1 + 1) ∧
      1 + 0 < 1 + 1 ∧ 0 < 1 + 1) :=
  ⟨⟨by simp, rfl, rfl, by norm_num, by norm_num, by norm_num⟩,
   saveLog_ids_monotonic unitCodec [] 0 1 (by simp) rfl rfl
     [(cexSimple, ()), (cexSimple, ())] 0 1 (by norm_num) (by norm_num) (by norm_num)⟩

/-- C1 counterexample: bootstrapping over a store whose max id is 2^31 − 1
seeds the counter to 2^31; after 2^31 further allocations the u32 counter
wraps, so the id assigned at position 2^31 is 0 — neither strictly greater
than the id 2^31 assigned at position 0, nor greater than the bootstrap
maximum 2^31 − 1. -/
theorem saveLog_ids_wrap_cex :
    managerNew cexDb = .ok (2 ^ 31) ∧
    (assignedIds unitCodec (2 ^ 31) cexDb
        (List.replicate (2 ^ 31 + 1) (cexSimple, ())))[0]? = some (2 ^ 31) ∧
    (assignedIds unitCodec (2 ^ 31) cexDb
        (List.replicate (2 ^ 31 + 1) (cexSimple, ())))[2 ^ 31]? = some 0 ∧
    ¬ ((2 ^ 31 : Nat) < 0) ∧ ¬ ((2 ^ 31 - 1 : Nat) < 0) := by
  refine ⟨rfl, ?_, ?_, by decide, by decide⟩
  · rw [assignedIds_get unitCodec (List.replicate (2 ^ 31 + 1) (cexSimple, ()))
      (2 ^ 31) cexDb 0 (by rw [List.length_replicate]; norm_num)]
    norm_num
  · rw [assignedIds_get unitCodec (List.replicate (2 ^ 31 + 1) (cexSimple, ()))
      (2 ^ 31) cexDb (2 ^ 31) (by rw [List.length_replicate]; norm_num)]
    norm_num

/-- C2 (amended): with a source filter, a content search term and a level
set, search returns exactly the hydratable stored records whose stored source
string equals the serialized filter source, whose STORED level string is a
member of the canonically-serialized level set when that set is non-empty (a
record stored under a non-canonical level encoding hydrates but is not
matched), and whose stored serialized content matches the sqlite LIKE pattern
that wraps the term in % wildcards — not literal substring containment of the
term in the decoded content. -/
theorem search_filter_exact {S : Type} (codec : Codec S) (db : List LogModel)
    (s : S) (srcStr : String) (hser : codec.ser s = .ok srcStr)
    (term : String) (levels : List Level) :
    ∃ (count : Int) (logs : List (Log S)),
      (search codec db (some s) none (some term) levels).result = .ok (count, logs) ∧
      ∀ l : Log S, l ∈ logs ↔ ∃ m ∈ db,
        Log.fromModel codec m = .ok l ∧
        m.source = srcStr ∧
        (levels = [] ∨ m.level ∈ levels.map Level.serialize) ∧
        likeMatch ("%" ++ term ++ "%") m.content = true := by
  have hsrc : sourceSer codec (some s) = .ok (some srcStr) := by
    simp [sourceSer, serializeOrReturnErr, hser]
  rw [search_eq_core codec db (some s) (some srcStr) none (some term) levels hsrc,
    searchCore_result]
  refine ⟨_, _, rfl, ?_⟩
  intro l
  simp only [applyPagination]
  rw [hydrateAll_fst, List.mem_filterMap]
  constructor
  · rintro ⟨m, hm, hfm⟩
    rw [toOption_eq_some] at hfm
    rcases List.mem_filter.mp hm with ⟨hdb, hmatch⟩
    rcases (rowMatches_some_iff srcStr (levels.map Level.serialize) term m).mp hmatch
      with ⟨hsrc2, hlev, hlike⟩
    refine ⟨m, hdb, hfm, hsrc2, ?_, hlike⟩
    rcases hlev with hlev | hlev
    · exact Or.inl (List.map_eq_nil_iff.mp hlev)
    · exact Or.inr hlev
  · rintro ⟨m, hdb, hfm, hsrc2, hlev, hlike⟩
    refine ⟨m, List.mem_filter.mpr ⟨hdb, ?_⟩, (toOption_eq_some _ _).mpr hfm⟩
    refine (rowMatches_some_iff srcStr (levels.map Level.serialize) term m).mpr
      ⟨hsrc2, ?_, hlike⟩
    rcases hlev with hlev | hlev
    · exact Or.inl (by rw [hlev]; rfl)
    · exact Or.inr hlev

/-- Witness for C2 over the one-row store `[cexRow]`, source filter "A",
content term "x" and level set `[info]`. -/
theorem search_filter_exact_witness :
    strCodec.ser "A" = .ok "\"A\"" ∧
    (∃ (count : Int) (logs : List (Log String)),
      (search strCodec [cexRow] (some "A") none (some "x") [.info]).result
          = .ok (count, logs) ∧
      ∀ l : Log String, l ∈ logs ↔ ∃ m ∈ [cexRow],
        Log.fromModel strCodec m = .ok l ∧
        m.source = "\"A\"" ∧
        (([Level.info] : List Level) = [] ∨
          m.level ∈ [Level.info].map Level.serialize) ∧
        likeMatch ("%" ++ "x" ++ "%") m.content = true) :=
  ⟨rfl, search_filter_exact strCodec [cexRow] "A" "\"A\"" rfl "x" [.info]⟩

/-- C2 counterexample, two searches falsifying the original claim.  First, a
content term "_" returns the stored record whose decoded content is "x",
although "x" does not contain "_" as a literal substring — the LIKE filter
reads the underscore as a single-character wildcard and runs over the
JSON-serialized stored content.  Second, a record stored under the
whitespace-padded level encoding hydrates to level info, a member of the
requested level set, yet is excluded by the byte-wise level filter on the
stored string. -/
theorem search_filter_mismatch_cex :
    (search strCodec [cexRow] none none (some "_") []).result = .ok (1, [cexLog]) ∧
    cexLog.content = "x" ∧
    containsSub "_".data "x".data = false ∧
    Log.fromModel strCodec wsRow = .ok wsLog ∧
    wsLog.level ∈ [Level.info] ∧
    (search strCodec [wsRow] none none none [Level.info]).result = .ok (0, []) :=
  ⟨rfl, rfl, by decide, rfl, by decide, rfl⟩

/-- C3: with Page{page p, page_size k} under p ≥ 1 and in-range sizes, over a
store whose rows all hydrate, search returns exactly the slice
matching[(p−1)·k : p·k] of the filtered rows under the stored order (hydrated,
none dropped), and total_count equals the number of matching rows for every
pagination choice. -/
theorem search_pagination_exact {S : Type} (codec : Codec S) (db : List LogModel)
    (source : Option S) (srcOpt : Option String)
    (hsrc : sourceSer codec source = .ok srcOpt)
    (cs : Option String) (levels : List Level) (p k : Nat)
    (hp : 1 ≤ p) (hp2 : p < 2 ^ 64) (hk : k < 2 ^ 63) (hb : (p - 1) * k < 2 ^ 63)
    (hhyd : ∀ m ∈ db, (Log.fromModel codec m).isOk = true) :
    (search codec db source (some (.page p k)) cs levels).result =
      .ok (((db.filter (rowMatches srcOpt (levels.map Level.serialize) cs)).length : Int),
        (((db.filter (rowMatches srcOpt (levels.map Level.serialize) cs)).drop
            ((p - 1) * k)).take k).filterMap
          (fun m => (Log.fromModel codec m).toOption)) ∧
    ((((db.filter (rowMatches srcOpt (levels.map Level.serialize) cs)).drop
          ((p - 1) * k)).take k).filterMap
        (fun m => (Log.fromModel codec m).toOption)).length
      = (((db.filter (rowMatches srcOpt (levels.map Level.serialize) cs)).drop
          ((p - 1) * k)).take k).length ∧
    ∀ pag : Option Pagination, ∃ logs : List (Log S),
      (search codec db source pag cs levels).result =
        .ok (((db.filter (rowMatches srcOpt (levels.map Level.serialize) cs)).length : Int),
          logs) := by
  refine ⟨?_, ?_, ?_⟩
  · rw [search_eq_core codec db source srcOpt (some (.page p k)) cs levels hsrc,
      searchCore_result,
      applyPagination_page p k _ hp hp2 hk hb, hydrateAll_fst]
  · apply filterMap_toOption_length
    intro m hm
    exact hhyd m
      (List.mem_of_mem_filter (List.mem_of_mem_drop (List.mem_of_mem_take hm)))
  · intro pag
    rw [search_eq_core codec db source srcOpt pag cs levels hsrc, searchCore_result]
    exact ⟨_, rfl⟩

/-- Witness for C3: a three-row store, no filters, page 2 of size 1. -/
theorem search_pagination_exact_witness :
    (sourceSer strCodec (none : Option String) = .ok none ∧
      1 ≤ 2 ∧ (2 : Nat) < 2 ^ 64 ∧ (1 : Nat) < 2 ^ 63 ∧ ((2 : Nat) - 1) * 1 < 2 ^ 63 ∧
      (∀ m ∈ [cexRow, sampleRow2, sampleRow3], (Log.fromModel strCodec m).isOk = true)) ∧
    ((search strCodec [cexRow, sampleRow2, sampleRow3] none (some (.page 2 1)) none []).result =
      .ok ((([cexRow, sampleRow2, sampleRow3].filter
            (rowMatches none (List.map Level.serialize []) none)).length : Int),
        ((([cexRow, sampleRow2, sampleRow3].filter
              (rowMatches none (List.map Level.serialize []) none)).drop
            ((2 - 1) * 1)).take 1).filterMap
          (fun m => (Log.fromModel strCodec m).toOption)) ∧
      (((([cexRow, sampleRow2, sampleRow3].filter
              (rowMatches none (List.map Level.serialize []) none)).drop
            ((2 - 1) * 1)).take 1).filterMap
          (fun m => (Log.fromModel strCodec m).toOption)).length
        = ((([cexRow, sampleRow2, sampleRow3].filter
              (rowMatches none (List.map Level.serialize []) none)).drop
            ((2 - 1) * 1)).take 1).length ∧
      ∀ pag : Option Pagination, ∃ logs : List (Log String),
        (search strCodec [cexRow, sampleRow2, sampleRow3] none pag none []).result =
          .ok ((([cexRow, sampleRow2, sampleRow3].filter
              (rowMatches none (List.map Level.serialize []) none)).length : Int), logs)) :=
  ⟨⟨rfl, by norm_num, by norm_num, by norm_num, by norm_num, by decide⟩,
   search_pagination_exact strCodec [cexRow, sampleRow2, sampleRow3] none none rfl
     none [] 2 1 (by norm_num) (by norm_num) (by norm_num) (by norm_num) (by decide)⟩

/-- C3 counterexample: at page = 2^63 + 1 (≥ 1) with page_size 2 over a
three-row store with no filters, the wrapped usize offset is 0, so search
returns the first two rows, while the slice matching[(p−1)·k : p·k] demanded
by the claim is empty. -/
theorem search_pagination_wrap_cex :
    (search strCodec [cexRow, sampleRow2, sampleRow3] none
        (some (.page (2 ^ 63 + 1) 2)) none []).result
      = .ok (3, [cexLog, sampleLog2]) ∧
    ((([cexRow, sampleRow2, sampleRow3].filter
          (rowMatches none (List.map Level.serialize []) none)).drop
        (((2 ^ 63 + 1) - 1) * 2)).take 2).filterMap
      (fun m => (Log.fromModel strCodec m).toOption) = [] ∧
    [cexLog, sampleLog2] ≠ ([] : List (Log String)) :=
  ⟨rfl, rfl, by decide⟩

/-- C4: over any store and any source/content/level filter with N matching
rows of which M < N fail to hydrate, search without pagination returns Ok
with total_count = N and exactly N − M hydrated logs; the per-row failures
surface only as a single aggregated Errors warning, never as a failed call.
-/
theorem search_partial_failure {S : Type} (codec : Codec S) (db : List LogModel)
    (source : Option S) (srcOpt : Option String)
    (hsrc : sourceSer codec source = .ok srcOpt)
    (cs : Option String) (levels : List Level)
    (hM : ((db.filter (rowMatches srcOpt (levels.map Level.serialize) cs)).filter
            (fun m => !(Log.fromModel codec m).isOk)).length
          < (db.filter (rowMatches srcOpt (levels.map Level.serialize) cs)).length) :
    ∃ logs : List (Log S),
      (search codec db source none cs levels).result =
        .ok (((db.filter (rowMatches srcOpt (levels.map Level.serialize) cs)).length : Int),
          logs) ∧
      logs.length
        = (db.filter (rowMatches srcOpt (levels.map Level.serialize) cs)).length
          - ((db.filter (rowMatches srcOpt (levels.map Level.serialize) cs)).filter
              (fun m => !(Log.fromModel codec m).isOk)).length ∧
      ((search codec db source none cs levels).warning = none ↔
        ((db.filter (rowMatches srcOpt (levels.map Level.serialize) cs)).filter
            (fun m => !(Log.fromModel codec m).isOk)).length = 0) ∧
      ∀ e, (search codec db source none cs levels).warning = some e →
        ∃ errs : List Error, e = Error.Errors errs ∧
          errs.length = ((db.filter (rowMatches srcOpt (levels.map Level.serialize) cs)).filter
              (fun m => !(Log.fromModel codec m).isOk)).length := by
  refine ⟨(hydrateAll codec
      (db.filter (rowMatches srcOpt (levels.map Level.serialize) cs))).1, ?_, ?_, ?_, ?_⟩
  · rw [search_eq_core codec db source srcOpt none cs levels hsrc, searchCore_result]
    simp only [applyPagination]
  · have h1 := hydrateAll_length codec
      (db.filter (rowMatches srcOpt (levels.map Level.serialize) cs))
    have h2 := hydrateAll_snd_length codec
      (db.filter (rowMatches srcOpt (levels.map Level.serialize) cs))
    omega
  · rw [search_eq_core codec db source srcOpt none cs levels hsrc, searchCore_warning]
    simp only [applyPagination]
    rw [← hydrateAll_snd_length codec
      (db.filter (rowMatches srcOpt (levels.map Level.serialize) cs))]
    cases hE : (hydrateAll codec
        (db.filter (rowMatches srcOpt (levels.map Level.serialize) cs))).2 with
    | nil => simp
    | cons e0 es => simp
  · rw [search_eq_core codec db source srcOpt none cs levels hsrc, searchCore_warning]
    simp only [applyPagination]
    rw [← hydrateAll_snd_length codec
      (db.filter (rowMatches srcOpt (levels.map Level.serialize) cs))]
    cases hE : (hydrateAll codec
        (db.filter (rowMatches srcOpt (levels.map Level.serialize) cs))).2 with
    | nil => simp
    | cons e0 es =>
      intro e he
      rw [if_neg (by simp)] at he
      injection he with he
      exact ⟨e0 :: es, he.symm, rfl⟩

/-- Witness for C4: a two-row store in which the second row's level column is
corrupt, searched without filters: total_count 2, one hydrated log, one
aggregated warning. -/
theorem search_partial_failure_witness :
    (sourceSer strCodec (none : Option String) = .ok none ∧
      (([cexRow, badRow].filter (rowMatches none (List.map Level.serialize []) none)).filter
          (fun m => !(Log.fromModel strCodec m).isOk)).length
        < ([cexRow, badRow].filter (rowMatches none (List.map Level.serialize []) none)).length) ∧
    (∃ logs : List (Log String),
      (search strCodec [cexRow, badRow] none none none []).result =
        .ok ((([cexRow, badRow].filter
            (rowMatches none (List.map Level.serialize []) none)).length : Int), logs) ∧
      logs.length
        = ([cexRow, badRow].filter (rowMatches none (List.map Level.serialize []) none)).length
          - (([cexRow, badRow].filter (rowMatches none (List.map Level.serialize []) none)).filter
              (fun m => !(Log.fromModel strCodec m).isOk)).length ∧
      ((search strCodec [cexRow, badRow] none none none []).warning = none ↔
        (([cexRow, badRow].filter (rowMatches none (List.map Level.serialize []) none)).filter
            (fun m => !(Log.fromModel strCodec m).isOk)).length = 0) ∧
      ∀ e, (search strCodec [cexRow, badRow] none none none []).warning = some e →
        ∃ errs : List Error, e = Error.Errors errs ∧
          errs.length = (([cexRow, badRow].filter
              (rowMatches none (List.map Level.serialize []) none)).filter
              (fun m => !(Log.fromModel strCodec m).isOk)).length) :=
  ⟨⟨rfl, by decide⟩,
   search_partial_failure strCodec [cexRow, badRow] none none rfl none [] (by decide)⟩

end LogManagerModel
